import Mathlib

/-!
Verification development for the vaayu parallel SFTP transfer engine.

The definitions below are shallow embeddings of the Python sources:
`vaayu/transfer.py` (the transfer engine: upload / download / relay units,
the inline retry loop, the remote SHA-256 fallback chain),
`vaayu/utils.py` (`CHUNK_SIZE`, `atomic_temp_name`, `async_retry`, `Stats`)
and `vaayu/ssh_client.py` (the `SSHClient` facade over SFTP).
File bytes are modelled as `List Nat`, remote/local file systems as maps
`String → Option (List Nat)`, Python `float` delays as `ℚ`, and Python
exceptions as the error side of `Except`.
-/

namespace Vaayu

/-! ## Definitions -/

/-- `CHUNK_SIZE = 1024 * 1024` from `vaayu/utils.py`. -/
def CHUNK_SIZE : Nat := 1024 * 1024

/-- `atomic_temp_name(dest_path) = dest_path + ".part"` from `vaayu/utils.py`. -/
def atomicTempName (destPath : String) : String := destPath ++ ".part"

/-- The sequence of chunks produced by the copy loop of `_upload_one`
(`transfer.py` lines 95-99): repeatedly `read(CHUNK_SIZE)` from the current
position until the read returns empty.  The argument is the part of the
source that lies at and after the current seek position. -/
def readChunks : List Nat → List (List Nat)
  | [] => []
  | a :: as => ((a :: as).take CHUNK_SIZE) :: readChunks ((a :: as).drop CHUNK_SIZE)
termination_by l => l.length
decreasing_by
  simp only [List.length_drop, List.length_cons, CHUNK_SIZE]
  omega

/-- Writing `data` at byte position `pos` of a file opened `"r+b"`:
the bytes before `pos` are kept, `data` overwrites from `pos` on, and any
bytes past the end of `data` are kept. -/
def writeAt (content : List Nat) (pos : Nat) (data : List Nat) : List Nat :=
  content.take pos ++ data ++ content.drop (pos + data.length)

/-- Effect on the remote temp file of writing the chunks one after the
other starting at position `pos` (the copy loop advances the file position
by each chunk's length). -/
def writeChunksFrom (content : List Nat) (pos : Nat) : List (List Nat) → List Nat
  | [] => content
  | c :: cs => writeChunksFrom (writeAt content pos c) (pos + c.length) cs

/-- Outcome of the `WriteOrResume` phase of `_upload_one`
(`transfer.py` lines 80-101): `offset` is the size of the existing remote
temp (`rstat.size if rstat else 0`), the open mode is `"r+b"` when
`offset > 0` else `"wb"` (which truncates), on resume both handles seek to
`offset`, and the loop copies `readChunks` of the local file from `offset`. -/
structure CopyRun where
  mode : String
  localSeek : Option Nat
  remoteSeek : Option Nat
  chunks : List (List Nat)
  remoteAfter : List Nat
  deriving Repr, DecidableEq

/-- Shallow embedding of the `WriteOrResume` phase of `_upload_one` for a
source file `src` and an existing remote temp with content `part`
(`offset = part.length`, matching `rstat.size`). -/
def uploadCopy (src part : List Nat) : CopyRun :=
  let offset := part.length
  let opened := if offset > 0 then part else []
  let chunks := readChunks (src.drop offset)
  { mode := if offset > 0 then "r+b" else "wb"
    localSeek := if offset > 0 then some offset else none
    remoteSeek := if offset > 0 then some offset else none
    chunks := chunks
    remoteAfter := writeChunksFrom opened offset chunks }

/-- A remote or local file system: a map from path to file content
(`none` when no file exists at the path). -/
def FS := String → Option (List Nat)

/-- The file-system-affecting operations a transfer unit performs, in the
order they appear in `_upload_one`, `_download_one` and `_relay_one`:
`makedirs`, `stat` of the temp, opening the temp (`"wb"` truncates or
creates, `"r+b"` and `"ab"` keep the content), chunk writes, the optional
hash verification (a pure read), and the final rename. -/
inductive FOp where
  | mkDirs (d : String)
  | statQ (p : String)
  | openTrunc (p : String)
  | openUpdate (p : String)
  | openAppendOp (p : String)
  | writeOp (p : String) (pos : Nat) (data : List Nat)
  | verifyOp (p : String)
  | renameOp (a b : String)
  deriving Repr, DecidableEq

/-- Effect of one operation on the file system.  `renameOp a b` makes the
content of `a` appear at `b` and removes `a` (`client.rename` /
`os.replace`); `openTrunc` truncates; reads change nothing. -/
def applyOp (fs : FS) : FOp → FS
  | .mkDirs _ => fs
  | .statQ _ => fs
  | .openTrunc p => fun q => if q = p then some [] else fs q
  | .openUpdate _ => fs
  | .openAppendOp _ => fs
  | .writeOp p pos data =>
      fun q => if q = p then some (writeAt ((fs p).getD []) pos data) else fs q
  | .verifyOp _ => fs
  | .renameOp a b => fun q => if q = b then fs a else if q = a then none else fs q

/-- Run a list of operations left to right. -/
def runOps (fs : FS) (ops : List FOp) : FS := ops.foldl applyOp fs

/-- The write operations issued by the copy loop: one `writeOp` per chunk,
at positions advancing by each chunk's length. -/
def writeOps (p : String) : Nat → List (List Nat) → List FOp
  | _, [] => []
  | pos, c :: cs => .writeOp p pos c :: writeOps p (pos + c.length) cs

/-- Operations of one successful attempt before the final rename: prepare
(`makedirs`, `stat` of the temp), open the temp, write the chunks, and
optionally verify. `opn` is the unit-specific open operation. -/
def unitPre (dir dst : String) (opn : FOp) (src part : List Nat) (verify : Bool) :
    List FOp :=
  [.mkDirs dir, .statQ (atomicTempName dst), opn]
    ++ writeOps (atomicTempName dst) part.length (readChunks (src.drop part.length))
    ++ (if verify then [.verifyOp (atomicTempName dst)] else [])

/-- Common shape of one successful attempt of a transfer unit, operating on
the destination-side file system: the pre-rename operations followed by
the rename of the temp onto the destination. -/
def unitTrace (dir dst : String) (opn : FOp) (src part : List Nat) (verify : Bool) :
    List FOp :=
  unitPre dir dst opn src part verify ++ [.renameOp (atomicTempName dst) dst]

/-- Successful attempt of `_upload_one` (`transfer.py` lines 72-119): the
remote temp of size `part.length` is opened `"r+b"` when resuming, `"wb"`
otherwise; the copy loop writes from offset `part.length`; then optional
verify and `client.rename(tmp, dst)`. -/
def uploadTrace (dir dst : String) (src part : List Nat) (verify : Bool) : List FOp :=
  unitTrace dir dst
    (if part.length > 0 then .openUpdate (atomicTempName dst)
     else .openTrunc (atomicTempName dst)) src part verify

/-- Successful attempt of `_download_one` (`transfer.py` lines 171-209) on
the local file system: the local temp is opened `"ab"` when resuming,
`"wb"` otherwise; then optional verify and `os.replace(tmp, dst)`. -/
def downloadTrace (dir dst : String) (src part : List Nat) (verify : Bool) : List FOp :=
  unitTrace dir dst
    (if part.length > 0 then .openAppendOp (atomicTempName dst)
     else .openTrunc (atomicTempName dst)) src part verify

/-- Successful attempt of `_relay_one` (`transfer.py` lines 234-272) on the
destination-side file system: the remote temp is opened `"r+b"` when
resuming, `"wb"` otherwise; then optional verify and
`dst_client.rename(tmp, dst)`. -/
def relayTrace (dir dst : String) (src part : List Nat) (verify : Bool) : List FOp :=
  unitTrace dir dst
    (if part.length > 0 then .openUpdate (atomicTempName dst)
     else .openTrunc (atomicTempName dst)) src part verify

/-- An operation leaves the content at path `q` unchanged. -/
def leavesPath (q : String) (op : FOp) : Prop := ∀ fs : FS, applyOp fs op q = fs q

/-- State of the counting semaphore discipline of the three transfer
methods: `avail` is the number of free permits of
`asyncio.Semaphore(parallel)`, and `inflight` is the number of units
currently between semaphore-acquire and semaphore-release. -/
structure SemSt where
  avail : Nat
  inflight : Nat
  deriving Repr, DecidableEq

/-- Semaphore events of the engine: the submission loop performs
`await semaphore.acquire()` before spawning each unit
(`transfer.py` lines 121-124), and `_with_sem` performs `sem.release()` in
a `finally` block on every exit path of the unit
(`transfer.py` lines 284-288). -/
inductive SemAct where
  | acquire
  | release
  deriving Repr, DecidableEq

/-- Initial semaphore state: `parallel` free permits, no unit in flight. -/
def semInit (parallel : Nat) : SemSt := ⟨parallel, 0⟩

/-- Transition semantics of `asyncio.Semaphore`: an acquire only proceeds
when a permit is free; a release comes only from a unit that holds a
permit (`_with_sem` releases exactly once, in `finally`, whether the unit
returned, raised after exhausting retries, or was cancelled). -/
inductive SemStep : SemSt → SemAct → SemSt → Prop where
  | acquire (s : SemSt) (h : 0 < s.avail) :
      SemStep s .acquire ⟨s.avail - 1, s.inflight + 1⟩
  | release (s : SemSt) (h : 0 < s.inflight) :
      SemStep s .release ⟨s.avail + 1, s.inflight - 1⟩

/-- States reachable by any interleaving of acquires and releases from the
initial state of a run with concurrency bound `parallel`. -/
inductive SemReach (parallel : Nat) : SemSt → Prop where
  | init : SemReach parallel (semInit parallel)
  | step {s s2 : SemSt} {a : SemAct} :
      SemReach parallel s → SemStep s a s2 → SemReach parallel s2

/-- A single-quote character as a string (ASCII 39). -/
def sq : String := String.singleton (Char.ofNat 39)

/-- POSIX single-quote escaping from `_remote_sha256._esc`
(`transfer.py` lines 294-296): every occurrence of a single quote is
replaced by quote-backslash-quote-quote.  Python `str.replace` with the
one-character pattern is a character-wise expansion. -/
def posixEscape (p : String) : String :=
  String.mk (p.data.flatMap fun c =>
    if c = Char.ofNat 39 then [Char.ofNat 39, Char.ofNat 92, Char.ofNat 39, Char.ofNat 39]
    else [c])

/-- The inline hash script of `_remote_sha256` (`transfer.py` lines
318-325); the path is interpolated raw into a Python raw triple-quoted
string. -/
def pyCode (path : String) : String :=
  "import hashlib;f=open(r" ++ sq ++ sq ++ sq ++ path ++ sq ++ sq ++ sq
    ++ "," ++ sq ++ "rb" ++ sq
    ++ ");h=hashlib.sha256();b=f.read(1048576);"
    ++ "while b: h.update(b); b=f.read(1048576);print(h.hexdigest())"

/-- Command 1 of the fallback chain: `sha256sum -- '<escaped path>'`. -/
def shaCmd1 (path : String) : String :=
  "sha256sum -- " ++ sq ++ posixEscape path ++ sq

/-- Command 2 of the fallback chain: `shasum -a 256 -- '<escaped path>'`. -/
def shaCmd2 (path : String) : String :=
  "shasum -a 256 -- " ++ sq ++ posixEscape path ++ sq

/-- Command 3 of the fallback chain: `python3 -c '<hash script>'`. -/
def shaCmd3 (path : String) : String :=
  "python3 -c " ++ sq ++ pyCode path ++ sq

/-- Command 4 of the fallback chain: `python -c '<hash script>'`. -/
def shaCmd4 (path : String) : String :=
  "python -c " ++ sq ++ pyCode path ++ sq

/-- The four fallback commands of `_remote_sha256`, in source order. -/
def shaCommands (path : String) : List String :=
  [shaCmd1 path, shaCmd2 path, shaCmd3 path, shaCmd4 path]

/-- Result of running one remote command over the exec channel, as seen by
`_remote_sha256._try`: the exit status and the decoded stdout. -/
structure CmdOut where
  exitStatus : Int
  stdout : String

/-- Success test of `_try` (`transfer.py` line 305):
`exit_status == 0 and bool(out)` with `out` the decoded, un-stripped
stdout. -/
def cmdOk (res : CmdOut) : Bool := res.exitStatus == 0 && !(res.stdout == "")

/-- Python `str.strip()` with no arguments: drop whitespace from both
ends. -/
def pyStrip (s : String) : String :=
  String.mk
    (((s.data.dropWhile Char.isWhitespace).reverse.dropWhile
        Char.isWhitespace).reverse)

/-- Helper for Python `str.split()`: accumulate the current word (in
reverse) while scanning. -/
def wordsAux : List Char → List Char → List (List Char)
  | [], acc => if acc = [] then [] else [acc.reverse]
  | c :: cs, acc =>
    if c.isWhitespace then
      if acc = [] then wordsAux cs [] else acc.reverse :: wordsAux cs []
    else wordsAux cs (c :: acc)

/-- Python `str.split()` with no arguments: split on whitespace runs,
dropping empty tokens. -/
def pyWords (s : String) : List String :=
  (wordsAux s.data []).map String.mk

/-- Shallow embedding of `_remote_sha256` (`transfer.py` lines 290-333)
over an oracle `run` giving each command's exit status and stdout.
Returns the result (the digest, or the raised error) together with the
list of commands actually executed, in order.  The first two branches take
`out.split()[0]` of the stripped stdout (an empty token list raises
`IndexError` in Python); the Python fallbacks return the stripped stdout
directly. -/
def remoteSha256 (run : String → CmdOut) (path : String) :
    Except String String × List String :=
  let c1 := shaCmd1 path
  let r1 := run c1
  if cmdOk r1 then
    match pyWords (pyStrip r1.stdout) with
    | w :: _ => (Except.ok w, [c1])
    | [] => (Except.error "IndexError", [c1])
  else
    let c2 := shaCmd2 path
    let r2 := run c2
    if cmdOk r2 then
      match pyWords (pyStrip r2.stdout) with
      | w :: _ => (Except.ok w, [c1, c2])
      | [] => (Except.error "IndexError", [c1, c2])
    else
      let c3 := shaCmd3 path
      let r3 := run c3
      if cmdOk r3 then (Except.ok (pyStrip r3.stdout), [c1, c2, c3])
      else
        let c4 := shaCmd4 path
        let r4 := run c4
        if cmdOk r4 then (Except.ok (pyStrip r4.stdout), [c1, c2, c3, c4])
        else
          (Except.error
            "Unable to compute remote SHA-256: no suitable tool available on remote host",
            [c1, c2, c3, c4])

/-- Boolean prefix test on character lists. -/
def leadsList : List Char → List Char → Bool
  | [], _ => true
  | _ :: _, [] => false
  | a :: as, b :: bs => a == b && leadsList as bs

/-- Boolean substring test on character lists: `p` occurs contiguously
somewhere in the second argument. -/
def occursIn (p : List Char) : List Char → Bool
  | [] => leadsList p []
  | b :: bs => leadsList p (b :: bs) || occursIn p bs

/-- The escaped path wrapped in single quotes, as the spec requires each
remote command to contain it. -/
def quotedEscaped (path : String) : String := sq ++ posixEscape path ++ sq

/-- Shallow embedding of `async_retry` from `vaayu/utils.py` lines 53-69,
started with the counter `attempt` already at the given value.  `fn` gives
the outcome of each call of the awaitable (0-based); the result is the
final outcome, the number of calls of `fn` made in total from call index 0,
and the list of sleep delays in order. -/
def asyncRetryGo {E A : Type} (fn : Nat → Except E A) (retries : Nat) (baseDelay : ℚ)
    (attempt : Nat) : Except E A × Nat × List ℚ :=
  match fn attempt with
  | .ok a => (.ok a, attempt + 1, [])
  | .error e =>
    if h : retries < attempt + 1 then (.error e, attempt + 1, [])
    else
      let rest := asyncRetryGo fn retries baseDelay (attempt + 1)
      (rest.1, rest.2.1, min (baseDelay * 2 ^ attempt) 10 :: rest.2.2)
termination_by retries - attempt
decreasing_by omega

/-- `async_retry(fn, retries, base_delay)`: the loop starts with
`attempt = 0`; on success the result is returned; on an error, `attempt`
is incremented, the error is re-raised once `attempt > retries`, and
otherwise the loop sleeps `min(base_delay * 2 ** (attempt - 1), 10.0)`
and calls `fn` again. -/
def asyncRetry {E A : Type} (fn : Nat → Except E A) (retries : Nat)
    (baseDelay : ℚ) : Except E A × Nat × List ℚ :=
  asyncRetryGo fn retries baseDelay 0

/-- Shallow embedding of the inline retry loop of the per-file units
(`transfer.py` lines 74-119 and analogues), started with the loop counter
`attempt` already at the given value.  Each iteration increments the
counter, runs the body, and on an exception re-raises when
`attempt > opts.retries`, else sleeps
`min(opts.backoff * 2 ** (attempt - 1), 10.0)` and loops. -/
def engineRetryGo {E A : Type} (body : Nat → Except E A) (retries : Nat) (backoff : ℚ)
    (attempt : Nat) : Except E A × Nat × List ℚ :=
  let a := attempt + 1
  match body attempt with
  | .ok x => (.ok x, a, [])
  | .error e =>
    if h : retries < a then (.error e, a, [])
    else
      let rest := engineRetryGo body retries backoff a
      (rest.1, rest.2.1, min (backoff * 2 ^ (a - 1)) 10 :: rest.2.2)
termination_by retries - attempt
decreasing_by omega

/-- The engine's inline retry loop started from `attempt = 0`. -/
def engineRetry {E A : Type} (body : Nat → Except E A) (retries : Nat)
    (backoff : ℚ) : Except E A × Nat × List ℚ :=
  engineRetryGo body retries backoff 0

/-- The `Stats` accumulator of `vaayu/utils.py` lines 72-77 (Python ints;
`duration_s` is wall-clock time and is not modelled). -/
structure Stats where
  files : Int
  bytes : Int
  retries : Int
  deriving Repr, DecidableEq

/-- A fresh `Stats()`. -/
def statsInit : Stats := ⟨0, 0, 0⟩

/-- The `Done` step of a successful unit (`transfer.py` lines 111-115):
`stats.files += 1`, `stats.bytes += total`, and
`if attempt > 1: stats.retries += attempt - 1`. -/
def doneUpdate (s : Stats) (total : Int) (attempt : Nat) : Stats :=
  { files := s.files + 1
    bytes := s.bytes + total
    retries := if 1 < attempt then s.retries + ((attempt : Int) - 1) else s.retries }

/-- One per-file unit of a run: the behaviour of its state-machine body on
each attempt, and the byte total it reports on `Done`. -/
structure UnitSpec (E : Type) where
  body : Nat → Except E Unit
  total : Int

/-- Run one unit through the engine's inline retry loop. -/
def unitRun {E : Type} (retries : Nat) (backoff : ℚ) (u : UnitSpec E) :
    Except E Unit × Nat × List ℚ :=
  engineRetry u.body retries backoff

/-- Whether an `Except` outcome is a success. -/
def exceptOk {E A : Type} : Except E A → Bool
  | .ok _ => true
  | .error _ => false

/-- Whether the unit finally succeeds (reaches `Done`). -/
def unitOk {E : Type} (retries : Nat) (backoff : ℚ) (u : UnitSpec E) : Bool :=
  exceptOk (unitRun retries backoff u).1

/-- The number of attempts the unit ran. -/
def unitAttempts {E : Type} (retries : Nat) (backoff : ℚ) (u : UnitSpec E) : Nat :=
  (unitRun retries backoff u).2.1

/-- Stats effect of one unit: a unit that reaches `Done` performs
`doneUpdate`; a unit that finally fails leaves the stats untouched
(the exception propagates before lines 111-115 run). -/
def unitStep {E : Type} (retries : Nat) (backoff : ℚ) (s : Stats) (u : UnitSpec E) :
    Stats :=
  match (unitRun retries backoff u).1 with
  | .ok _ => doneUpdate s u.total (unitAttempts retries backoff u)
  | .error _ => s

/-- The stats accumulated over a whole run of a transfer method. -/
def runStats {E : Type} (retries : Nat) (backoff : ℚ) (us : List (UnitSpec E)) : Stats :=
  us.foldl (unitStep retries backoff) statsInit

/-- The error taxonomy of the SSH/SFTP session layer. -/
inductive SErr where
  | notFound
  | permissionDenied
  | ioErr
  | authFailed
  | hostKeyMismatch
  | transport
  deriving Repr, DecidableEq

/-- The underlying asyncssh SFTP operations as an oracle: what each raw
call returns or raises.  `statR` returns the file size attributes, `openR`
a handle identifier. -/
structure SftpOps where
  connectR : Except SErr Unit
  statR : String → Except SErr Nat
  mkdirR : String → Except SErr Unit
  openR : String → String → Except SErr Nat
  renameR : String → String → Except SErr Unit
  removeR : String → Except SErr Unit
  listdirR : String → Except SErr (List String)

/-- A `try: ...; except Exception: pass` block around a call. -/
def tryIgnore {E A : Type} (x : Except E A) : Except E Unit :=
  match x with
  | _ => .ok ()

/-- `SSHClient.connect` (`ssh_client.py` lines 34-50): no exception
handler, every error propagates. -/
def sessConnect (ops : SftpOps) : Except SErr Unit := ops.connectR

/-- `SSHClient.stat` (`ssh_client.py` lines 74-78): a not-found error is
mapped to `None`; every other error propagates. -/
def sessStat (ops : SftpOps) (path : String) : Except SErr (Option Nat) :=
  match ops.statR path with
  | .ok a => .ok (some a)
  | .error .notFound => .ok none
  | .error e => .error e

/-- Python `path.replace("\\", "/")`: map backslashes to forward
slashes. -/
def normalizeSlashes (s : String) : String :=
  String.mk (s.data.map fun c => if c = Char.ofNat 92 then Char.ofNat 47 else c)

/-- Helper for Python `str.split("/")`: accumulate the current component
(in reverse) while scanning; adjacent separators yield empty
components. -/
def splitSlashAux : List Char → List Char → List (List Char)
  | [], acc => [acc.reverse]
  | c :: cs, acc =>
    if c = Char.ofNat 47 then acc.reverse :: splitSlashAux cs []
    else splitSlashAux cs (c :: acc)

/-- Python `str.split("/")` (note `"".split("/") == [""]`). -/
def splitSlash (s : String) : List String :=
  (splitSlashAux s.data []).map String.mk

/-- Python `str.strip("/")`: drop leading and trailing forward slashes. -/
def stripSlash (s : String) : String :=
  String.mk
    (((s.data.dropWhile fun c => c = Char.ofNat 47).reverse.dropWhile
        fun c => c = Char.ofNat 47).reverse)

/-- The cumulative directory paths `makedirs` creates
(`ssh_client.py` lines 80-91): normalize, strip slashes, split on `/`,
and accumulate `/comp1`, `/comp1/comp2`, …. -/
def mkdirPaths (path : String) : List String :=
  let comps := splitSlash (stripSlash (normalizeSlashes path))
  (comps.foldl
    (fun (acc : List String × String) comp =>
      let cur := if acc.2 = "" then "/" ++ comp else acc.2 ++ "/" ++ comp
      (acc.1 ++ [cur], cur))
    ([], "")).1

/-- `SSHClient.makedirs` (`ssh_client.py` lines 80-91): each component is
created with `mkdir` inside `try: ...; except Exception: pass`, so every
per-component failure is swallowed. -/
def sessMakedirs (ops : SftpOps) (path : String) : Except SErr Unit :=
  (mkdirPaths path).foldl
    (fun st cur =>
      match st with
      | .error e => .error e
      | .ok () => tryIgnore (ops.mkdirR cur))
    (.ok ())

/-- `SSHClient.open_remote` (`ssh_client.py` lines 93-94): direct
passthrough. -/
def sessOpen (ops : SftpOps) (path mode : String) : Except SErr Nat :=
  ops.openR path mode

/-- `SSHClient.rename` (`ssh_client.py` lines 96-97): direct
passthrough. -/
def sessRename (ops : SftpOps) (a b : String) : Except SErr Unit :=
  ops.renameR a b

/-- `SSHClient.remove` (`ssh_client.py` lines 99-103): the removal is
wrapped in `try: ...; except Exception: pass`. -/
def sessRemove (ops : SftpOps) (path : String) : Except SErr Unit :=
  tryIgnore (ops.removeR path)

/-- `SSHClient.listdir` (`ssh_client.py` lines 105-106): direct
passthrough. -/
def sessListdir (ops : SftpOps) (path : String) : Except SErr (List String) :=
  ops.listdirR path

/-- An SFTP layer on which every raw operation fails with
`PermissionDenied`. -/
def denyAllOps : SftpOps :=
  { connectR := .error .permissionDenied
    statR := fun _ => .error .permissionDenied
    mkdirR := fun _ => .error .permissionDenied
    openR := fun _ _ => .error .permissionDenied
    renameR := fun _ _ => .error .permissionDenied
    removeR := fun _ => .error .permissionDenied
    listdirR := fun _ => .error .permissionDenied }

/-! ## General lemmas -/

theorem readChunks_flatten (l : List Nat) : (readChunks l).flatten = l := by
  induction l using readChunks.induct with
  | case1 => simp [readChunks]
  | case2 a as ih =>
    rw [readChunks]
    simp only [List.flatten_cons, ih, List.take_append_drop]

theorem readChunks_sum_length (l : List Nat) :
    ((readChunks l).map List.length).sum = l.length := by
  have h := congrArg List.length (readChunks_flatten l)
  simpa [List.length_flatten] using h

theorem readChunks_chunk_le (l : List Nat) :
    ∀ c ∈ readChunks l, c.length ≤ CHUNK_SIZE := by
  induction l using readChunks.induct with
  | case1 => simp [readChunks]
  | case2 a as ih =>
    rw [readChunks]
    intro c hc
    rcases List.mem_cons.mp hc with rfl | hc
    · exact List.length_take_le _ _
    · exact ih c hc

theorem writeChunksFrom_at_end (content : List Nat) (cs : List (List Nat)) :
    writeChunksFrom content content.length cs = content ++ cs.flatten := by
  induction cs generalizing content with
  | nil => simp [writeChunksFrom]
  | cons c cs ih =>
    rw [writeChunksFrom]
    have h1 : writeAt content content.length c = content ++ c := by
      simp [writeAt]
    rw [h1]
    have h2 : content.length + c.length = (content ++ c).length := by
      simp
    rw [h2, ih]
    simp

theorem atomicTempName_ne (d : String) : atomicTempName d ≠ d := by
  intro h
  have h2 := congrArg String.length h
  have h5 : (".part" : String).length = 5 := by decide
  rw [atomicTempName, String.length_append, h5] at h2
  omega

theorem leavesPath_openTrunc {q p : String} (h : p ≠ q) :
    leavesPath q (.openTrunc p) := by
  intro fs
  have hq : q ≠ p := fun hq => h hq.symm
  simp [applyOp, hq]

theorem leavesPath_writeOp {q p : String} (h : p ≠ q) (pos : Nat) (data : List Nat) :
    leavesPath q (.writeOp p pos data) := by
  intro fs
  have hq : q ≠ p := fun hq => h hq.symm
  simp [applyOp, hq]

theorem leavesPath_writeOps {q p : String} (h : p ≠ q) (pos : Nat)
    (cs : List (List Nat)) : ∀ op ∈ writeOps p pos cs, leavesPath q op := by
  induction cs generalizing pos with
  | nil => simp [writeOps]
  | cons c cs ih =>
    intro op hop
    rw [writeOps] at hop
    rcases List.mem_cons.mp hop with rfl | hop
    · exact leavesPath_writeOp h pos c
    · exact ih _ op hop

theorem runOps_leaves (q : String) (ops : List FOp)
    (h : ∀ op ∈ ops, leavesPath q op) : ∀ fs : FS, runOps fs ops q = fs q := by
  induction ops with
  | nil => intro fs; rfl
  | cons op ops ih =>
    intro fs
    have h1 : runOps fs (op :: ops) = runOps (applyOp fs op) ops := rfl
    rw [h1, ih (fun o ho => h o (List.mem_cons_of_mem _ ho)),
      h op (List.mem_cons_self _ _)]

theorem unitPre_leaves (dir dst : String) (opn : FOp) (src part : List Nat)
    (verify : Bool) (hop : leavesPath dst opn) :
    ∀ op ∈ unitPre dir dst opn src part verify, leavesPath dst op := by
  intro op hop2
  rw [unitPre] at hop2
  simp only [List.mem_append, List.mem_cons, List.mem_singleton] at hop2
  rcases hop2 with ((rfl | rfl | rfl | h0) | hw) | hv
  · intro fs; rfl
  · intro fs; rfl
  · exact hop
  · simp at h0
  · exact leavesPath_writeOps (atomicTempName_ne dst) _ _ op hw
  · rcases verify with _ | _
    · simp at hv
    · simp at hv
      subst hv
      intro fs; rfl

theorem runOps_append (fs : FS) (l₁ l₂ : List FOp) :
    runOps fs (l₁ ++ l₂) = runOps (runOps fs l₁) l₂ :=
  List.foldl_append _ _ _ _

/-- Core publication lemma for all three transfer units: on a successful
attempt, the destination path is untouched by every proper prefix of the
trace, the last operation is the rename from the `.part` temp, afterwards
the temp is gone and the destination holds exactly what the temp held just
before the rename; with verification enabled, the verify step sits strictly
before the rename in the trace. -/
theorem unitTrace_spec (dir dst : String) (opn : FOp) (src part : List Nat)
    (verify : Bool) (fs : FS) (hop : leavesPath dst opn) :
    (∀ k, k < (unitTrace dir dst opn src part verify).length →
        runOps fs ((unitTrace dir dst opn src part verify).take k) dst = fs dst) ∧
    (unitTrace dir dst opn src part verify).getLast?
        = some (.renameOp (atomicTempName dst) dst) ∧
    runOps fs (unitTrace dir dst opn src part verify) (atomicTempName dst) = none ∧
    runOps fs (unitTrace dir dst opn src part verify) dst
        = runOps fs (unitTrace dir dst opn src part verify).dropLast
            (atomicTempName dst) ∧
    (verify = true → ∃ i j : Nat, i < j ∧
        (unitTrace dir dst opn src part verify)[i]?
            = some (FOp.verifyOp (atomicTempName dst)) ∧
        (unitTrace dir dst opn src part verify)[j]?
            = some (FOp.renameOp (atomicTempName dst) dst)) := by
  have hne : atomicTempName dst ≠ dst := atomicTempName_ne dst
  have hpre := unitPre_leaves dir dst opn src part verify hop
  have htr : unitTrace dir dst opn src part verify
      = unitPre dir dst opn src part verify
          ++ [.renameOp (atomicTempName dst) dst] := rfl
  refine ⟨?_, ?_, ?_, ?_, ?_⟩
  · intro k hk
    rw [htr] at hk ⊢
    rw [List.length_append, List.length_singleton] at hk
    have hk2 : k ≤ (unitPre dir dst opn src part verify).length := by omega
    rw [List.take_append_of_le_length hk2]
    exact runOps_leaves dst _
      (fun op hop2 => hpre op (List.take_subset _ _ hop2)) fs
  · rw [htr]
    exact List.getLast?_concat _
  · rw [htr, runOps_append]
    show applyOp _ (.renameOp (atomicTempName dst) dst) (atomicTempName dst) = none
    simp [applyOp, hne]
  · rw [htr, runOps_append, List.dropLast_concat]
    show applyOp _ (.renameOp (atomicTempName dst) dst) dst = _
    simp [applyOp]
  · intro hv
    subst hv
    have htr2 : unitTrace dir dst opn src part true
        = ([FOp.mkDirs dir, .statQ (atomicTempName dst), opn]
              ++ writeOps (atomicTempName dst) part.length
                  (readChunks (src.drop part.length)))
            ++ ([FOp.verifyOp (atomicTempName dst)]
              ++ [FOp.renameOp (atomicTempName dst) dst]) := by
      rw [htr, unitPre]
      simp [List.append_assoc]
    refine ⟨([FOp.mkDirs dir, .statQ (atomicTempName dst), opn]
        ++ writeOps (atomicTempName dst) part.length
            (readChunks (src.drop part.length))).length,
      ([FOp.mkDirs dir, .statQ (atomicTempName dst), opn]
        ++ writeOps (atomicTempName dst) part.length
            (readChunks (src.drop part.length))).length + 1,
      Nat.lt_succ_self _, ?_, ?_⟩
    · rw [htr2, List.getElem?_append_right (Nat.le_refl _)]
      simp
    · rw [htr2, List.getElem?_append_right (Nat.le_succ _)]
      simp

/-! ## Claim theorems -/

/-- C1: For every file transfer unit (upload, download, or relay) that
completes successfully, the final destination path becomes visible only
through a rename of its `.part` sibling performed after the (optional)
verification step, and after success no file named `<dest>.part` remains:
every proper prefix of the unit's trace leaves the destination unchanged,
the last operation is the rename of the `.part` temp onto the destination
(placed after the verify step when verification is enabled), the final
destination content is exactly the temp's pre-rename content, and the temp
no longer exists afterwards. -/
theorem publish_only_via_part_rename (dir dst : String) (src part : List Nat)
    (verify : Bool) (fs : FS) (tr : List FOp)
    (htr : tr = uploadTrace dir dst src part verify ∨
        tr = downloadTrace dir dst src part verify ∨
        tr = relayTrace dir dst src part verify) :
    (∀ k, k < tr.length → runOps fs (tr.take k) dst = fs dst) ∧
    tr.getLast? = some (FOp.renameOp (atomicTempName dst) dst) ∧
    runOps fs tr (atomicTempName dst) = none ∧
    runOps fs tr dst = runOps fs tr.dropLast (atomicTempName dst) ∧
    (verify = true → ∃ i j : Nat, i < j ∧
        tr[i]? = some (FOp.verifyOp (atomicTempName dst)) ∧
        tr[j]? = some (FOp.renameOp (atomicTempName dst) dst)) := by
  have hopU : leavesPath dst
      (if part.length > 0 then FOp.openUpdate (atomicTempName dst)
       else FOp.openTrunc (atomicTempName dst)) := by
    split
    · intro fs2; rfl
    · exact leavesPath_openTrunc (atomicTempName_ne dst)
  have hopD : leavesPath dst
      (if part.length > 0 then FOp.openAppendOp (atomicTempName dst)
       else FOp.openTrunc (atomicTempName dst)) := by
    split
    · intro fs2; rfl
    · exact leavesPath_openTrunc (atomicTempName_ne dst)
  rcases htr with rfl | rfl | rfl
  · exact unitTrace_spec dir dst _ src part verify fs hopU
  · exact unitTrace_spec dir dst _ src part verify fs hopD
  · exact unitTrace_spec dir dst _ src part verify fs hopU

/-- Witness for C1 at a concrete upload trace. -/
theorem publish_only_via_part_rename_witness :
    (∀ k, k < (uploadTrace "d" "x" [1] [] true).length →
        runOps (fun _ => none) ((uploadTrace "d" "x" [1] [] true).take k) "x"
          = none) ∧
    (uploadTrace "d" "x" [1] [] true).getLast?
        = some (FOp.renameOp (atomicTempName "x") "x") ∧
    runOps (fun _ => none) (uploadTrace "d" "x" [1] [] true)
        (atomicTempName "x") = none ∧
    runOps (fun _ => none) (uploadTrace "d" "x" [1] [] true) "x"
        = runOps (fun _ => none) (uploadTrace "d" "x" [1] [] true).dropLast
            (atomicTempName "x") ∧
    (true = true → ∃ i j : Nat, i < j ∧
        (uploadTrace "d" "x" [1] [] true)[i]?
            = some (FOp.verifyOp (atomicTempName "x")) ∧
        (uploadTrace "d" "x" [1] [] true)[j]?
            = some (FOp.renameOp (atomicTempName "x") "x")) :=
  publish_only_via_part_rename "d" "x" [1] [] true (fun _ => none) _ (Or.inl rfl)

/-- C2: For every upload of a source file of size `total` with an existing
remote `.part` of content `part` of size `N` where `0 < N < total` (a
partially transferred prefix of the source, per the on-disk `.part`
semantics), the unit opens the remote temp in `"r+b"`, seeks both handles
to `N`, transfers exactly `total - N` additional content bytes in chunks of
at most 1 MiB, and the remote temp ends up holding the full source
content. -/
theorem upload_resume_transfers_remainder (src part : List Nat)
    (h0 : 0 < part.length) (hlt : part.length < src.length)
    (hpre : part = src.take part.length) :
    (uploadCopy src part).mode = "r+b" ∧
    (uploadCopy src part).localSeek = some part.length ∧
    (uploadCopy src part).remoteSeek = some part.length ∧
    ((uploadCopy src part).chunks.map List.length).sum
        = src.length - part.length ∧
    (∀ c ∈ (uploadCopy src part).chunks, c.length ≤ CHUNK_SIZE) ∧
    (uploadCopy src part).remoteAfter = src := by
  have hoff : part.length > 0 := h0
  simp only [uploadCopy, if_pos hoff]
  refine ⟨trivial, trivial, trivial, ?_, ?_, ?_⟩
  · rw [readChunks_sum_length, List.length_drop]
  · exact readChunks_chunk_le _
  · rw [writeChunksFrom_at_end, readChunks_flatten]
    conv_rhs => rw [← List.take_append_drop part.length src]
    rw [← hpre]

/-- Witness for C2: a 3-byte source with a 1-byte partial. -/
theorem upload_resume_transfers_remainder_witness :
    0 < ([5] : List Nat).length ∧
    ([5] : List Nat).length < ([5, 6, 7] : List Nat).length ∧
    ([5] : List Nat) = ([5, 6, 7] : List Nat).take ([5] : List Nat).length ∧
    ((uploadCopy [5, 6, 7] [5]).mode = "r+b" ∧
      (uploadCopy [5, 6, 7] [5]).localSeek = some ([5] : List Nat).length ∧
      (uploadCopy [5, 6, 7] [5]).remoteSeek = some ([5] : List Nat).length ∧
      ((uploadCopy [5, 6, 7] [5]).chunks.map List.length).sum
          = ([5, 6, 7] : List Nat).length - ([5] : List Nat).length ∧
      (∀ c ∈ (uploadCopy [5, 6, 7] [5]).chunks, c.length ≤ CHUNK_SIZE) ∧
      (uploadCopy [5, 6, 7] [5]).remoteAfter = [5, 6, 7]) :=
  ⟨by decide, by decide, by decide,
    upload_resume_transfers_remainder [5, 6, 7] [5] (by decide) (by decide)
      (by decide)⟩

/-- C10: For every upload where a leftover remote `.part` has size
`offset ≥ total` (the source's size) and verify is disabled, the unit
transfers zero data bytes (the copy loop reads nothing after seeking),
renames the stale `.part` unchanged to the destination, and counts the
file as successful with `stats.files` incremented by 1 and `stats.bytes`
incremented by `total` — not by the bytes actually present at the
destination. -/
theorem upload_stale_part_zero_copy (dir dst : String) (src part : List Nat)
    (s : Stats) (fs : FS)
    (hge : src.length ≤ part.length)
    (hfs : fs (atomicTempName dst) = some part) :
    (uploadCopy src part).chunks = [] ∧
    ((uploadCopy src part).chunks.map List.length).sum = 0 ∧
    (uploadCopy src part).remoteAfter = part ∧
    runOps fs (uploadTrace dir dst src part false) dst = some part ∧
    runOps fs (uploadTrace dir dst src part false) (atomicTempName dst) = none ∧
    (doneUpdate s (src.length : Int) 1).files = s.files + 1 ∧
    (doneUpdate s (src.length : Int) 1).bytes = s.bytes + (src.length : Int) ∧
    (doneUpdate s (src.length : Int) 1).retries = s.retries := by
  have hne : atomicTempName dst ≠ dst := atomicTempName_ne dst
  have hdrop : src.drop part.length = [] := List.drop_eq_nil_of_le hge
  have hchunks : readChunks (src.drop part.length) = [] := by
    rw [hdrop, readChunks]
  have htr : uploadTrace dir dst src part false
      = [FOp.mkDirs dir, .statQ (atomicTempName dst),
          (if part.length > 0 then FOp.openUpdate (atomicTempName dst)
           else FOp.openTrunc (atomicTempName dst)),
          .renameOp (atomicTempName dst) dst] := by
    rw [uploadTrace, unitTrace, unitPre, hchunks]
    simp [writeOps]
  have hca : (uploadCopy src part).chunks = [] := by
    simp only [uploadCopy]
    exact hchunks
  refine ⟨hca, by rw [hca]; rfl, ?_, ?_, ?_, rfl, rfl, by simp [doneUpdate]⟩
  · have h3 : (uploadCopy src part).remoteAfter
        = writeChunksFrom (if part.length > 0 then part else []) part.length
            (readChunks (src.drop part.length)) := rfl
    rw [h3, hchunks]
    rcases Nat.eq_zero_or_pos part.length with hz | hp
    · have hnil : part = [] := List.length_eq_zero.mp hz
      rw [if_neg (by omega : ¬ part.length > 0), writeChunksFrom, hnil]
    · rw [if_pos hp, writeChunksFrom]
  · rw [htr]
    rcases Nat.eq_zero_or_pos part.length with hz | hp
    · have hnil : part = [] := List.length_eq_zero.mp hz
      rw [if_neg (by omega : ¬ part.length > 0)]
      simp only [runOps, List.foldl]
      simp [applyOp, hne, hnil]
    · rw [if_pos hp]
      simp only [runOps, List.foldl]
      simp [applyOp, hne, hfs]
  · rw [htr]
    rcases Nat.eq_zero_or_pos part.length with hz | hp
    · rw [if_neg (by omega : ¬ part.length > 0)]
      simp only [runOps, List.foldl]
      simp [applyOp, hne]
    · rw [if_pos hp]
      simp only [runOps, List.foldl]
      simp [applyOp, hne]

/-- Witness for C10: a 1-byte source with a stale 2-byte partial. -/
theorem upload_stale_part_zero_copy_witness :
    ([7] : List Nat).length ≤ ([7, 8] : List Nat).length ∧
    ((fun q => if q = atomicTempName "x" then some [7, 8] else none) : FS)
        (atomicTempName "x") = some [7, 8] ∧
    ((uploadCopy [7] [7, 8]).chunks = [] ∧
      ((uploadCopy [7] [7, 8]).chunks.map List.length).sum = 0 ∧
      (uploadCopy [7] [7, 8]).remoteAfter = [7, 8] ∧
      runOps (fun q => if q = atomicTempName "x" then some [7, 8] else none)
          (uploadTrace "d" "x" [7] [7, 8] false) "x" = some [7, 8] ∧
      runOps (fun q => if q = atomicTempName "x" then some [7, 8] else none)
          (uploadTrace "d" "x" [7] [7, 8] false) (atomicTempName "x") = none ∧
      (doneUpdate statsInit (([7] : List Nat).length : Int) 1).files
          = statsInit.files + 1 ∧
      (doneUpdate statsInit (([7] : List Nat).length : Int) 1).bytes
          = statsInit.bytes + (([7] : List Nat).length : Int) ∧
      (doneUpdate statsInit (([7] : List Nat).length : Int) 1).retries
          = statsInit.retries) :=
  ⟨by decide, by simp,
    upload_stale_part_zero_copy "d" "x" [7] [7, 8] statsInit
      (fun q => if q = atomicTempName "x" then some [7, 8] else none)
      (by decide) (by simp)⟩

theorem semReach_invariant (parallel : Nat) (s : SemSt)
    (h : SemReach parallel s) : s.avail + s.inflight = parallel := by
  induction h with
  | init => simp [semInit]
  | step hr hstep ih =>
    cases hstep with
    | acquire hpos =>
      show _ - 1 + (_ + 1) = parallel
      omega
    | release hpos =>
      show _ + 1 + (_ - 1) = parallel
      omega

/-- C3: For every run of a transfer method with concurrency bound
`parallel`, the number of units between semaphore-acquire and
semaphore-release never exceeds `parallel`: acquisition decrements a free
permit before each unit is spawned, release happens on every exit path
(`_with_sem`'s `finally`), and in every reachable state the in-flight
count is at most `parallel`. -/
theorem semaphore_bounds_inflight (parallel : Nat) (s : SemSt)
    (h : SemReach parallel s) : s.inflight ≤ parallel := by
  have hinv := semReach_invariant parallel s h
  omega

/-- Witness for C3: with two permits, after a single acquire one unit is in
flight, within the bound. -/
theorem semaphore_bounds_inflight_witness :
    SemReach 2 ⟨1, 1⟩ ∧ (⟨1, 1⟩ : SemSt).inflight ≤ 2 :=
  have hreach : SemReach 2 ⟨1, 1⟩ :=
    SemReach.step SemReach.init (SemStep.acquire (semInit 2) (by decide))
  ⟨hreach, semaphore_bounds_inflight 2 ⟨1, 1⟩ hreach⟩

/-- C4: `_remote_sha256` executes the fallback commands in the exact order
`sha256sum`, `shasum -a 256`, `python3 -c`, `python -c`; it returns the
digest extracted from the first command that succeeds (exit status 0 and
non-empty stdout, the digest being the first whitespace token for the
first two commands and the stripped stdout for the Python fallbacks) and
does not run later commands; if all four fail it raises the terminal
"no hashing tool available" error. -/
theorem remote_sha256_fallback_chain (run : String → CmdOut) (path : String) :
    (cmdOk (run (shaCmd1 path)) = true →
      ∀ w ws, pyWords (pyStrip (run (shaCmd1 path)).stdout) = w :: ws →
        remoteSha256 run path = (Except.ok w, [shaCmd1 path])) ∧
    (cmdOk (run (shaCmd1 path)) = false →
      cmdOk (run (shaCmd2 path)) = true →
      ∀ w ws, pyWords (pyStrip (run (shaCmd2 path)).stdout) = w :: ws →
        remoteSha256 run path = (Except.ok w, [shaCmd1 path, shaCmd2 path])) ∧
    (cmdOk (run (shaCmd1 path)) = false →
      cmdOk (run (shaCmd2 path)) = false →
      cmdOk (run (shaCmd3 path)) = true →
        remoteSha256 run path
          = (Except.ok (pyStrip (run (shaCmd3 path)).stdout),
              [shaCmd1 path, shaCmd2 path, shaCmd3 path])) ∧
    (cmdOk (run (shaCmd1 path)) = false →
      cmdOk (run (shaCmd2 path)) = false →
      cmdOk (run (shaCmd3 path)) = false →
      cmdOk (run (shaCmd4 path)) = true →
        remoteSha256 run path
          = (Except.ok (pyStrip (run (shaCmd4 path)).stdout), shaCommands path)) ∧
    ((∀ c ∈ shaCommands path, cmdOk (run c) = false) →
        remoteSha256 run path
          = (Except.error
              "Unable to compute remote SHA-256: no suitable tool available on remote host",
              shaCommands path)) := by
  refine ⟨?_, ?_, ?_, ?_, ?_⟩
  · intro h1 w ws hw
    simp [remoteSha256, h1, hw]
  · intro h1 h2 w ws hw
    simp [remoteSha256, h1, h2, hw]
  · intro h1 h2 h3
    simp [remoteSha256, h1, h2, h3]
  · intro h1 h2 h3 h4
    simp [remoteSha256, shaCommands, h1, h2, h3, h4]
  · intro hall
    have h1 := hall (shaCmd1 path) (by simp [shaCommands])
    have h2 := hall (shaCmd2 path) (by simp [shaCommands])
    have h3 := hall (shaCmd3 path) (by simp [shaCommands])
    have h4 := hall (shaCmd4 path) (by simp [shaCommands])
    simp [remoteSha256, shaCommands, h1, h2, h3, h4]

/-- Witness for C4: an oracle on which `sha256sum` fails and
`shasum -a 256` prints a two-token line; the digest is the first token and
only the first two commands run. -/
theorem remote_sha256_fallback_chain_witness :
    cmdOk ((fun c => if c = shaCmd2 "f" then CmdOut.mk 0 "abc def"
        else CmdOut.mk 1 "") (shaCmd1 "f")) = false ∧
    cmdOk ((fun c => if c = shaCmd2 "f" then CmdOut.mk 0 "abc def"
        else CmdOut.mk 1 "") (shaCmd2 "f")) = true ∧
    pyWords (pyStrip ((fun c => if c = shaCmd2 "f" then CmdOut.mk 0 "abc def"
        else CmdOut.mk 1 "") (shaCmd2 "f")).stdout) = "abc" :: ["def"] ∧
    remoteSha256 (fun c => if c = shaCmd2 "f" then CmdOut.mk 0 "abc def"
        else CmdOut.mk 1 "") "f" = (Except.ok "abc", [shaCmd1 "f", shaCmd2 "f"]) :=
  ⟨by decide, by decide, by decide,
    (remote_sha256_fallback_chain
        (fun c => if c = shaCmd2 "f" then CmdOut.mk 0 "abc def"
          else CmdOut.mk 1 "") "f").2.1
      (by decide) (by decide) "abc" ["def"] (by decide)⟩

theorem asyncRetryGo_ok {E A : Type} (fn : Nat → Except E A) (retries : Nat)
    (q : ℚ) (j : Nat) (a : A) (h : fn j = .ok a) :
    asyncRetryGo fn retries q j = (.ok a, j + 1, []) := by
  unfold asyncRetryGo
  rw [h]

theorem asyncRetryGo_error_last {E A : Type} (fn : Nat → Except E A) (retries : Nat)
    (q : ℚ) (j : Nat) (e : E) (h : fn j = .error e) (hlt : retries < j + 1) :
    asyncRetryGo fn retries q j = (.error e, j + 1, []) := by
  unfold asyncRetryGo
  rw [h]
  simp [hlt]

theorem asyncRetryGo_error_retry {E A : Type} (fn : Nat → Except E A) (retries : Nat)
    (q : ℚ) (j : Nat) (e : E) (h : fn j = .error e) (hnl : ¬ retries < j + 1) :
    asyncRetryGo fn retries q j
      = ((asyncRetryGo fn retries q (j + 1)).1,
          (asyncRetryGo fn retries q (j + 1)).2.1,
          min (q * 2 ^ j) 10 :: (asyncRetryGo fn retries q (j + 1)).2.2) := by
  conv_lhs => rw [asyncRetryGo]
  rw [h]
  simp [hnl]

theorem asyncRetryGo_lower {E A : Type} (fn : Nat → Except E A) (retries : Nat)
    (q : ℚ) : ∀ j, j + 1 ≤ (asyncRetryGo fn retries q j).2.1 := by
  have key : ∀ d j, retries - j = d → j + 1 ≤ (asyncRetryGo fn retries q j).2.1 := by
    intro d
    induction d with
    | zero =>
      intro j hd
      cases hfn : fn j with
      | ok a => rw [asyncRetryGo_ok fn retries q j a hfn]
      | error e =>
        rw [asyncRetryGo_error_last fn retries q j e hfn (by omega)]
    | succ d ih =>
      intro j hd
      cases hfn : fn j with
      | ok a => rw [asyncRetryGo_ok fn retries q j a hfn]
      | error e =>
        rw [asyncRetryGo_error_retry fn retries q j e hfn (by omega)]
        have h2 := ih (j + 1) (by omega)
        simp only []
        omega
  intro j
  exact key (retries - j) j rfl

theorem asyncRetryGo_upper {E A : Type} (fn : Nat → Except E A) (retries : Nat)
    (q : ℚ) : ∀ j, j ≤ retries → (asyncRetryGo fn retries q j).2.1 ≤ retries + 1 := by
  have key : ∀ d j, retries - j = d → j ≤ retries →
      (asyncRetryGo fn retries q j).2.1 ≤ retries + 1 := by
    intro d
    induction d with
    | zero =>
      intro j hd hj
      cases hfn : fn j with
      | ok a =>
        rw [asyncRetryGo_ok fn retries q j a hfn]
        simp only []
        omega
      | error e =>
        rw [asyncRetryGo_error_last fn retries q j e hfn (by omega)]
        simp only []
        omega
    | succ d ih =>
      intro j hd hj
      cases hfn : fn j with
      | ok a =>
        rw [asyncRetryGo_ok fn retries q j a hfn]
        simp only []
        omega
      | error e =>
        rw [asyncRetryGo_error_retry fn retries q j e hfn (by omega)]
        have h2 := ih (j + 1) (by omega) (by omega)
        simp only []
        omega
  intro j
  exact key (retries - j) j rfl

theorem asyncRetryGo_sleeps {E A : Type} (fn : Nat → Except E A) (retries : Nat)
    (q : ℚ) : ∀ j, (asyncRetryGo fn retries q j).2.2
        = (List.range ((asyncRetryGo fn retries q j).2.1 - 1 - j)).map
            (fun k => min (q * 2 ^ (j + k)) 10) := by
  have key : ∀ d j, retries - j = d → (asyncRetryGo fn retries q j).2.2
      = (List.range ((asyncRetryGo fn retries q j).2.1 - 1 - j)).map
          (fun k => min (q * 2 ^ (j + k)) 10) := by
    intro d
    induction d with
    | zero =>
      intro j hd
      cases hfn : fn j with
      | ok a =>
        rw [asyncRetryGo_ok fn retries q j a hfn]
        simp
      | error e =>
        rw [asyncRetryGo_error_last fn retries q j e hfn (by omega)]
        simp
    | succ d ih =>
      intro j hd
      cases hfn : fn j with
      | ok a =>
        rw [asyncRetryGo_ok fn retries q j a hfn]
        simp
      | error e =>
        rw [asyncRetryGo_error_retry fn retries q j e hfn (by omega)]
        have hlow := asyncRetryGo_lower fn retries q (j + 1)
        rw [ih (j + 1) (by omega)]
        simp only []
        have hn : (asyncRetryGo fn retries q (j + 1)).2.1 - 1 - j
            = ((asyncRetryGo fn retries q (j + 1)).2.1 - 1 - (j + 1)) + 1 := by
          omega
        rw [hn, List.range_succ_eq_map, List.map_cons, List.map_map]
        congr 1
        refine List.map_congr_left fun k hk => ?_
        simp only [Function.comp_apply, Nat.succ_eq_add_one]
        have he : j + 1 + k = j + (k + 1) := by omega
        rw [he]
  intro j
  exact key (retries - j) j rfl

theorem asyncRetryGo_first_ok {E A : Type} (fn : Nat → Except E A) (retries : Nat)
    (q : ℚ) (jstar : Nat) (a : A) (hja : fn jstar = .ok a) (hjr : jstar ≤ retries) :
    ∀ j0, j0 ≤ jstar → (∀ i, j0 ≤ i → i < jstar → exceptOk (fn i) = false) →
      (asyncRetryGo fn retries q j0).1 = .ok a ∧
      (asyncRetryGo fn retries q j0).2.1 = jstar + 1 := by
  have key : ∀ d j0, jstar - j0 = d → j0 ≤ jstar →
      (∀ i, j0 ≤ i → i < jstar → exceptOk (fn i) = false) →
      (asyncRetryGo fn retries q j0).1 = .ok a ∧
      (asyncRetryGo fn retries q j0).2.1 = jstar + 1 := by
    intro d
    induction d with
    | zero =>
      intro j0 hd hj0 _
      have hj : j0 = jstar := by omega
      subst hj
      rw [asyncRetryGo_ok fn retries q j0 a hja]
      exact ⟨rfl, rfl⟩
    | succ d ih =>
      intro j0 hd hj0 hfail
      have hj0lt : j0 < jstar := by omega
      have hf := hfail j0 (Nat.le_refl _) hj0lt
      cases hfn : fn j0 with
      | ok b =>
        rw [hfn] at hf
        simp [exceptOk] at hf
      | error e =>
        rw [asyncRetryGo_error_retry fn retries q j0 e hfn (by omega)]
        have h2 := ih (j0 + 1) (by omega) (by omega)
          (fun i hi1 hi2 => hfail i (by omega) hi2)
        exact h2
  intro j0
  exact key (jstar - j0) j0 rfl

theorem asyncRetryGo_exhaust {E A : Type} (fn : Nat → Except E A) (retries : Nat)
    (q : ℚ) (e : E) (hlast : fn retries = .error e) :
    ∀ j0, j0 ≤ retries → (∀ i, j0 ≤ i → i < retries → exceptOk (fn i) = false) →
      (asyncRetryGo fn retries q j0).1 = .error e ∧
      (asyncRetryGo fn retries q j0).2.1 = retries + 1 := by
  have key : ∀ d j0, retries - j0 = d → j0 ≤ retries →
      (∀ i, j0 ≤ i → i < retries → exceptOk (fn i) = false) →
      (asyncRetryGo fn retries q j0).1 = .error e ∧
      (asyncRetryGo fn retries q j0).2.1 = retries + 1 := by
    intro d
    induction d with
    | zero =>
      intro j0 hd hj0 _
      have hj : j0 = retries := by omega
      rw [hj, asyncRetryGo_error_last fn retries q retries e hlast (by omega)]
      exact ⟨rfl, rfl⟩
    | succ d ih =>
      intro j0 hd hj0 hfail
      have hj0lt : j0 < retries := by omega
      have hf := hfail j0 (Nat.le_refl _) hj0lt
      cases hfn : fn j0 with
      | ok b =>
        rw [hfn] at hf
        simp [exceptOk] at hf
      | error e2 =>
        rw [asyncRetryGo_error_retry fn retries q j0 e2 hfn (by omega)]
        exact ih (j0 + 1) (by omega) (by omega)
          (fun i hi1 hi2 => hfail i (by omega) hi2)
  intro j0
  exact key (retries - j0) j0 rfl

/-- C5: `async_retry(fn, retries, base_delay)` runs `fn` at most
`retries + 1` times, returns the first successful result, sleeps
`min(base_delay * 2 ^ (attempt - 1), 10)` before the `attempt`-th retry
(the sleep list is exactly that sequence), treats every error value as
retryable (the error type is arbitrary and every error takes the retry
branch), and on exhaustion rethrows the last error. -/
theorem async_retry_spec {E A : Type} (fn : Nat → Except E A) (retries : Nat)
    (baseDelay : ℚ) :
    (asyncRetry fn retries baseDelay).2.1 ≤ retries + 1 ∧
    (asyncRetry fn retries baseDelay).2.2
        = (List.range ((asyncRetry fn retries baseDelay).2.1 - 1)).map
            (fun k => min (baseDelay * 2 ^ k) 10) ∧
    (∀ j a, j ≤ retries → fn j = .ok a →
        (∀ i, i < j → exceptOk (fn i) = false) →
        (asyncRetry fn retries baseDelay).1 = .ok a ∧
        (asyncRetry fn retries baseDelay).2.1 = j + 1) ∧
    (∀ e, fn retries = .error e →
        (∀ i, i < retries → exceptOk (fn i) = false) →
        (asyncRetry fn retries baseDelay).1 = .error e ∧
        (asyncRetry fn retries baseDelay).2.1 = retries + 1) := by
  refine ⟨asyncRetryGo_upper fn retries baseDelay 0 (Nat.zero_le _), ?_, ?_, ?_⟩
  · have h := asyncRetryGo_sleeps fn retries baseDelay 0
    simpa using h
  · intro j a hj hok hfail
    exact asyncRetryGo_first_ok fn retries baseDelay j a hok hj 0 (Nat.zero_le _)
      (fun i _ h2 => hfail i h2)
  · intro e he hfail
    exact asyncRetryGo_exhaust fn retries baseDelay e he 0 (Nat.zero_le _)
      (fun i _ h2 => hfail i h2)

/-- Witness for C5: a function failing once then succeeding, with
`retries = 2`: the result is the success of the second call after two
calls in total. -/
theorem async_retry_spec_witness :
    (1 ≤ 2) ∧
    ((fun j => if j = 0 then (Except.error "e" : Except String Nat)
        else .ok 7) 1 = .ok 7) ∧
    ((asyncRetry (fun j => if j = 0 then (Except.error "e" : Except String Nat)
          else .ok 7) 2 1).1 = .ok 7 ∧
      (asyncRetry (fun j => if j = 0 then (Except.error "e" : Except String Nat)
          else .ok 7) 2 1).2.1 = 1 + 1) :=
  ⟨by decide, rfl,
    (async_retry_spec
        (fun j => if j = 0 then (Except.error "e" : Except String Nat) else .ok 7)
        2 1).2.2.1 1 7 (by decide) rfl
      (fun i hi => by
        have hi0 : i = 0 := by omega
        subst hi0
        rfl)⟩

theorem engineRetryGo_ok {E A : Type} (body : Nat → Except E A) (retries : Nat)
    (q : ℚ) (j : Nat) (x : A) (h : body j = .ok x) :
    engineRetryGo body retries q j = (.ok x, j + 1, []) := by
  unfold engineRetryGo
  rw [h]

theorem engineRetryGo_error_last {E A : Type} (body : Nat → Except E A) (retries : Nat)
    (q : ℚ) (j : Nat) (e : E) (h : body j = .error e) (hlt : retries < j + 1) :
    engineRetryGo body retries q j = (.error e, j + 1, []) := by
  unfold engineRetryGo
  rw [h]
  simp [hlt]

theorem engineRetryGo_error_retry {E A : Type} (body : Nat → Except E A) (retries : Nat)
    (q : ℚ) (j : Nat) (e : E) (h : body j = .error e) (hnl : ¬ retries < j + 1) :
    engineRetryGo body retries q j
      = ((engineRetryGo body retries q (j + 1)).1,
          (engineRetryGo body retries q (j + 1)).2.1,
          min (q * 2 ^ j) 10 :: (engineRetryGo body retries q (j + 1)).2.2) := by
  conv_lhs => rw [engineRetryGo]
  rw [h]
  simp [hnl]

theorem engineRetryGo_eq_asyncRetryGo {E A : Type} (body : Nat → Except E A)
    (retries : Nat) (backoff : ℚ) :
    ∀ j, engineRetryGo body retries backoff j = asyncRetryGo body retries backoff j := by
  have key : ∀ d j, retries - j = d →
      engineRetryGo body retries backoff j = asyncRetryGo body retries backoff j := by
    intro d
    induction d with
    | zero =>
      intro j hd
      cases hb : body j with
      | ok x =>
        rw [engineRetryGo_ok body retries backoff j x hb,
          asyncRetryGo_ok body retries backoff j x hb]
      | error e =>
        rw [engineRetryGo_error_last body retries backoff j e hb (by omega),
          asyncRetryGo_error_last body retries backoff j e hb (by omega)]
    | succ d ih =>
      intro j hd
      cases hb : body j with
      | ok x =>
        rw [engineRetryGo_ok body retries backoff j x hb,
          asyncRetryGo_ok body retries backoff j x hb]
      | error e =>
        rw [engineRetryGo_error_retry body retries backoff j e hb (by omega),
          asyncRetryGo_error_retry body retries backoff j e hb (by omega),
          ih (j + 1) (by omega)]
  intro j
  exact key (retries - j) j rfl

/-- C6: the Engine's inline retry loop (counter `attempt`, rethrow when
`attempt > opts.retries`, otherwise sleep
`min(opts.backoff * 2 ^ (attempt - 1), 10)` and restart the body) is
behaviourally equivalent to running the same body through
`async_retry(fn, opts.retries, opts.backoff)`: same final result, same
number of attempts, same sleep sequence. -/
theorem engine_retry_equals_async_retry {E A : Type} (body : Nat → Except E A)
    (retries : Nat) (backoff : ℚ) :
    engineRetry body retries backoff = asyncRetry body retries backoff :=
  engineRetryGo_eq_asyncRetryGo body retries backoff 0

theorem unitAttempts_pos {E : Type} (retries : Nat) (backoff : ℚ) (u : UnitSpec E) :
    1 ≤ unitAttempts retries backoff u := by
  have he := engineRetryGo_eq_asyncRetryGo u.body retries backoff 0
  have hl := asyncRetryGo_lower u.body retries backoff 0
  unfold unitAttempts unitRun engineRetry
  rw [he]
  omega

theorem doneUpdate_retries (s : Stats) (total : Int) (attempt : Nat)
    (h : 1 ≤ attempt) :
    (doneUpdate s total attempt).retries = s.retries + ((attempt : Int) - 1) := by
  unfold doneUpdate
  rcases Nat.lt_or_ge 1 attempt with hlt2 | hge
  · simp [hlt2]
  · have h1 : attempt = 1 := by omega
    subst h1
    simp

theorem foldl_unitStep_spec {E : Type} (retries : Nat) (backoff : ℚ) :
    ∀ (us : List (UnitSpec E)) (s : Stats),
      (us.foldl (unitStep retries backoff) s).retries
          = s.retries + ((us.filter (unitOk retries backoff)).map
              (fun u => (unitAttempts retries backoff u : Int) - 1)).sum ∧
      (us.foldl (unitStep retries backoff) s).files
          = s.files + ((us.filter (unitOk retries backoff)).length : Int) := by
  intro us
  induction us with
  | nil =>
    intro s
    simp
  | cons u us ih =>
    intro s
    rw [List.foldl_cons]
    cases hok : (unitRun retries backoff u).1 with
    | ok x =>
      have hstep : unitStep retries backoff s u
          = doneUpdate s u.total (unitAttempts retries backoff u) := by
        unfold unitStep
        rw [hok]
      have hfil : (u :: us).filter (unitOk retries backoff)
          = u :: us.filter (unitOk retries backoff) := by
        simp [List.filter_cons, unitOk, hok, exceptOk]
      rw [hstep, hfil]
      obtain ⟨h1, h2⟩ := ih (doneUpdate s u.total (unitAttempts retries backoff u))
      constructor
      · rw [h1, doneUpdate_retries s u.total _ (unitAttempts_pos retries backoff u)]
        rw [List.map_cons, List.sum_cons]
        ring
      · rw [h2]
        have hf : (doneUpdate s u.total (unitAttempts retries backoff u)).files
            = s.files + 1 := rfl
        rw [hf, List.length_cons]
        push_cast
        ring
    | error e =>
      have hstep : unitStep retries backoff s u = s := by
        unfold unitStep
        rw [hok]
      have hfil : (u :: us).filter (unitOk retries backoff)
          = us.filter (unitOk retries backoff) := by
        simp [List.filter_cons, unitOk, hok, exceptOk]
      rw [hstep, hfil]
      exact ih s

/-- C7: over any run of a transfer method, `stats.retries` is non-negative
and equals the sum of `attempts_i - 1` over the units that completed
successfully; a unit contributes to `stats.retries` (and to `stats.files`)
only on reaching `Done`, never on a failed attempt or a finally-failed
unit (failed units leave the stats untouched, so `stats.files` counts
exactly the successful units). -/
theorem stats_retries_characterization {E : Type} (retries : Nat) (backoff : ℚ)
    (us : List (UnitSpec E)) :
    0 ≤ (runStats retries backoff us).retries ∧
    (runStats retries backoff us).retries
        = ((us.filter (unitOk retries backoff)).map
            (fun u => (unitAttempts retries backoff u : Int) - 1)).sum ∧
    (runStats retries backoff us).files
        = ((us.filter (unitOk retries backoff)).length : Int) := by
  obtain ⟨h1, h2⟩ := foldl_unitStep_spec retries backoff us statsInit
  have h1b : (runStats retries backoff us).retries
      = ((us.filter (unitOk retries backoff)).map
          (fun u => (unitAttempts retries backoff u : Int) - 1)).sum := by
    unfold runStats
    rw [h1]
    simp [statsInit]
  have h2b : (runStats retries backoff us).files
      = ((us.filter (unitOk retries backoff)).length : Int) := by
    unfold runStats
    rw [h2]
    simp [statsInit]
  refine ⟨?_, h1b, h2b⟩
  rw [h1b]
  apply List.sum_nonneg
  intro x hx
  obtain ⟨u, hu, rfl⟩ := List.mem_map.mp hx
  have hp := unitAttempts_pos retries backoff u
  omega

theorem dataAppend (a b : String) : (a ++ b).data = a.data ++ b.data := rfl

theorem leadsList_self_append (p r : List Char) : leadsList p (p ++ r) = true := by
  induction p with
  | nil => rfl
  | cons c cs ih => simp [leadsList, ih]

theorem occursIn_of_leads (p l : List Char) (h : leadsList p l = true) :
    occursIn p l = true := by
  cases l with
  | nil => exact h
  | cons b bs => simp [occursIn, h]

theorem occursIn_of_append (p x y : List Char) :
    occursIn p (x ++ (p ++ y)) = true := by
  induction x with
  | nil =>
    simp only [List.nil_append]
    exact occursIn_of_leads p (p ++ y) (leadsList_self_append p y)
  | cons a as ih =>
    simp [occursIn, ih]

/-- Counterexample to C8: for the path `a'b` (which contains a single
quote), the `python3 -c` fallback command does not contain the
POSIX-escaped path inside single quotes — the script interpolates the raw
path — even though that command is one of the four sent to the remote. -/
theorem sha_commands_escaped_counterexample :
    shaCmd3 ("a" ++ sq ++ "b") ∈ shaCommands ("a" ++ sq ++ "b") ∧
    occursIn (quotedEscaped ("a" ++ sq ++ "b")).data
        (shaCmd3 ("a" ++ sq ++ "b")).data = false := by
  constructor
  · simp [shaCommands]
  · decide

/-- C8 amended: each of the two checksum commands (`sha256sum`,
`shasum -a 256`) contains the path POSIX single-quote escaped inside
single quotes; the two Python fallback commands instead embed the raw,
unescaped path (inside a Python raw triple-quoted string), so the escaped
form need not occur in them. -/
theorem sha_commands_quoting (path : String) :
    occursIn (quotedEscaped path).data (shaCmd1 path).data = true ∧
    occursIn (quotedEscaped path).data (shaCmd2 path).data = true ∧
    occursIn path.data (shaCmd3 path).data = true ∧
    occursIn path.data (shaCmd4 path).data = true := by
  refine ⟨?_, ?_, ?_, ?_⟩
  · have h := occursIn_of_append (quotedEscaped path).data
      ("sha256sum -- " : String).data []
    simpa [shaCmd1, quotedEscaped, dataAppend, List.append_assoc] using h
  · have h := occursIn_of_append (quotedEscaped path).data
      ("shasum -a 256 -- " : String).data []
    simpa [shaCmd2, quotedEscaped, dataAppend, List.append_assoc] using h
  · have h := occursIn_of_append path.data
      ("python3 -c " ++ sq ++ "import hashlib;f=open(r" ++ sq ++ sq ++ sq).data
      ((sq ++ sq ++ sq ++ "," ++ sq ++ "rb" ++ sq
          ++ ");h=hashlib.sha256();b=f.read(1048576);"
          ++ "while b: h.update(b); b=f.read(1048576);print(h.hexdigest())"
          ++ sq) : String).data
    simpa [shaCmd3, pyCode, dataAppend, List.append_assoc] using h
  · have h := occursIn_of_append path.data
      ("python -c " ++ sq ++ "import hashlib;f=open(r" ++ sq ++ sq ++ sq).data
      ((sq ++ sq ++ sq ++ "," ++ sq ++ "rb" ++ sq
          ++ ");h=hashlib.sha256();b=f.read(1048576);"
          ++ "while b: h.update(b); b=f.read(1048576);print(h.hexdigest())"
          ++ sq) : String).data
    simpa [shaCmd4, pyCode, dataAppend, List.append_assoc] using h

theorem sessMakedirs_ok (ops : SftpOps) (path : String) :
    sessMakedirs ops path = .ok () := by
  unfold sessMakedirs
  generalize mkdirPaths path = l
  induction l with
  | nil => rfl
  | cons c cs ih =>
    rw [List.foldl_cons]
    simpa [tryIgnore] using ih

/-- Counterexample to C9: on a layer whose raw `mkdir` fails with
`PermissionDenied`, `makedirs` still returns success — the error is
swallowed per component, so `remove` is not the only operation that
swallows failures. -/
theorem session_makedirs_swallows_counterexample :
    denyAllOps.mkdirR "/a" = Except.error SErr.permissionDenied ∧
    sessMakedirs denyAllOps "/a" = Except.ok () :=
  ⟨rfl, sessMakedirs_ok denyAllOps "/a"⟩

/-- C9 amended: `connect`, `stat`, `open_remote`, `rename` and `listdir`
surface every error of the taxonomy unchanged (`stat` maps only `NotFound`
to a `none` result); `remove` swallows all failures; and `makedirs` also
never raises — each per-component `mkdir` failure is swallowed by its
`try/except pass`. -/
theorem session_error_passthrough (ops : SftpOps) (path mode a b : String) :
    sessConnect ops = ops.connectR ∧
    (∀ e, e ≠ SErr.notFound → ops.statR path = .error e →
        sessStat ops path = .error e) ∧
    (ops.statR path = .error .notFound → sessStat ops path = .ok none) ∧
    (∀ n, ops.statR path = .ok n → sessStat ops path = .ok (some n)) ∧
    sessOpen ops path mode = ops.openR path mode ∧
    sessRename ops a b = ops.renameR a b ∧
    sessListdir ops path = ops.listdirR path ∧
    sessMakedirs ops path = .ok () ∧
    sessRemove ops path = .ok () := by
  refine ⟨rfl, ?_, ?_, ?_, rfl, rfl, rfl, sessMakedirs_ok ops path, rfl⟩
  · intro e hne hstat
    unfold sessStat
    rw [hstat]
    cases e with
    | notFound => exact absurd rfl hne
    | permissionDenied => rfl
    | ioErr => rfl
    | authFailed => rfl
    | hostKeyMismatch => rfl
    | transport => rfl
  · intro hstat
    unfold sessStat
    rw [hstat]
  · intro n hstat
    unfold sessStat
    rw [hstat]

/-- Witness for C9 (amended) at the all-denying layer: `stat` surfaces the
`PermissionDenied` unchanged while `makedirs` reports success. -/
theorem session_error_passthrough_witness :
    (SErr.permissionDenied ≠ SErr.notFound ∧
      denyAllOps.statR "/a" = .error SErr.permissionDenied ∧
      sessStat denyAllOps "/a" = .error SErr.permissionDenied) ∧
    sessMakedirs denyAllOps "/a" = .ok () :=
  ⟨⟨by decide, rfl,
      (session_error_passthrough denyAllOps "/a" "rb" "s" "t").2.1
        SErr.permissionDenied (by decide) rfl⟩,
    (session_error_passthrough denyAllOps "/a" "rb" "s" "t").2.2.2.2.2.2.2.1⟩

end Vaayu
